import Mathlib

set_option maxHeartbeats 1000000

/-!
Verification of the expreva core (Pratt-rule parser and tree-walking
evaluator) against its natural-language specification.

The evaluator (`evaluate`, `evaluateExpression`, `bindFunctionScope`,
macro expansion) is translated from `src/evaluate` (shipped inside
`src/src/tests/arithmetic.js` in this source drop).  The parser rule
table is translated from `src/src/rules.ts`.  Parts of the repository
that are not present under `src/` (the `Parser` class driving the rules,
`environment.ts`, the standard library of host functions, the lexer) are
modelled from the spec and are marked as such in their doc comments.

Modelling conventions:
  * JS numbers are modelled as `Int` (every number appearing in the
    claims is a small integer); the JS `NaN` produced by numeric
    coercion of non-numbers is the dedicated value `Val.nan`.
  * JS `null` and `undefined` are collapsed into `Val.nil`; the
    evaluator itself only ever produces `undefined`.
  * JS objects are mutable, so they live in a heap (`St.objs`) and an
    object value is a reference into it.  Environments likewise live in
    `St.frames`.  JS arrays are modelled as immutable Lean lists: no
    claim exercises array aliasing.
  * Prototype-inherited members of plain objects (e.g. `toString`) are
    not modelled: the spec's data model says an object is "a mapping
    from string key to value".
-/

namespace Expreva

/-- Runtime values, which are also the AST nodes (the language is
homoiconic): numbers, strings (used both as symbols and as string
values, exactly as in the JS source), booleans, nil (JS
null/undefined), lists (JS arrays), heap-referenced objects, error
objects (what `env.throw` raises, carrying a message), environment
handles (the values of the symbols `local` / `global`), closures
(functions with a `.lambda` property) and named host functions. -/
inductive Val where
  | num (n : Int)
  | nan
  | str (s : String)
  | bool (b : Bool)
  | nil
  | list (xs : List Val)
  | obj (ref : Nat)
  | errObj (message : String)
  | envRef (id : Nat)
  | closure (args : List Val) (body : Val) (scope : Nat) (mflag : Bool) (name : String)
  | hostFn (name : String) (mflag : Bool)

/-- JS `Array.isArray`. -/
def Val.isList : Val → Bool
  | .list _ => true
  | _ => false

/-- Nil test (JS `v == null`). -/
def Val.isNil : Val → Bool
  | .nil => true
  | _ => false

/-- JS `typeof v === 'string'`. -/
def Val.isStr : Val → Bool
  | .str _ => true
  | _ => false

/-- Test whether a value is a given symbol/string (`v === 's'`). -/
def Val.strEq : Val → String → Bool
  | .str s, t => s == t
  | _, _ => false

/-- JS `typeof v === 'object'` for the modelled values (arrays, plain
objects, thrown error objects and environment handles are `object`s;
`nil` is `undefined`, whose typeof is not `'object'`). -/
def Val.isJsObject : Val → Bool
  | .list _ | .obj _ | .errObj _ | .envRef _ => true
  | _ => false

/-- JS `v instanceof Function`. -/
def Val.isFn : Val → Bool
  | .closure _ _ _ _ _ | .hostFn _ _ => true
  | _ => false

/-- JS truthiness (`!v` negated): `false`, `0`, `''`, `null`/`undefined`
and `NaN` are falsy. -/
def Val.truthy : Val → Bool
  | .nil => false
  | .nan => false
  | .bool b => b
  | .num n => n != 0
  | .str s => s != ""
  | _ => true

/-- JS property-key coercion `String(v)` as used by `obj[key] = ...`.
Array/object/function keys are corner cases no claim depends on; they
are approximated by fixed markers. -/
def jsKey : Val → String
  | .str s => s
  | .num n => toString n
  | .nan => "NaN"
  | .bool true => "true"
  | .bool false => "false"
  | .nil => "undefined"
  | .list _ => "array"
  | .obj _ => "[object Object]"
  | .errObj _ => "[object Object]"
  | .envRef _ => "[object Object]"
  | .closure _ _ _ _ _ => "[function]"
  | .hostFn _ _ => "[function]"

/-- One environment frame.  Modelled from the spec: `environment.ts` is
not in the sources.  Per the spec an environment is "a mapping from
symbol to value, chained via an optional parent handle", and also
exposes `global`, a handle to the top-most non-root scope of the
current evaluation. -/
structure Frame where
  bindings : List (String × Val)
  parent : Option Nat
  global : Option Nat

/-- Evaluator state: the environment heap, the object heap, and the
process-wide root bindings (`Environment.root`). -/
structure St where
  frames : List Frame
  objs : List (List (String × Val))
  root : List (String × Val)

/-- Set a key in an association list, replacing in place (JS property
assignment keeps insertion order). -/
def bset : List (String × Val) → String → Val → List (String × Val)
  | [], k, v => [(k, v)]
  | (k', v') :: rest, k, v =>
    if k' = k then (k, v) :: rest else (k', v') :: bset rest k v

/-- Own-property lookup. -/
def blookup : List (String × Val) → String → Option Val
  | [], _ => none
  | (k', v') :: rest, k => if k' = k then some v' else blookup rest k

def St.getFrame (st : St) (i : Nat) : Frame :=
  st.frames.getD i { bindings := [], parent := none, global := none }

def St.setFrame (st : St) (i : Nat) (f : Frame) : St :=
  { st with frames := st.frames.set i f }

def St.setFrameBinding (st : St) (i : Nat) (k : String) (v : Val) : St :=
  st.setFrame i { st.getFrame i with bindings := bset (st.getFrame i).bindings k v }

def St.pushFrame (st : St) (f : Frame) : St :=
  { st with frames := st.frames ++ [f] }

def St.getObj (st : St) (i : Nat) : List (String × Val) :=
  st.objs.getD i []

def St.setObj (st : St) (i : Nat) (b : List (String × Val)) : St :=
  { st with objs := st.objs.set i b }

def St.pushObj (st : St) (b : List (String × Val)) : St :=
  { st with objs := st.objs ++ [b] }

/-- Model of `env.create()`: a new child scope whose parent is the receiver and
which inherits the receiver's `global` handle (spec section 3). -/
def St.create (st : St) (parent : Nat) : Frame :=
  { bindings := [], parent := some parent, global := (st.getFrame parent).global }

/-- Symbol resolution from `evaluateExpression`: own bindings, then the
parent chain recursively, then `Environment.root`, else the symbol is
undefined (`none`).  The extra fuel argument only guards against cyclic
parent chains in arbitrary states; states built by the evaluator are
acyclic. -/
def envLookup (st : St) : Nat → Nat → String → Option Val
  | 0, _, _ => none
  | fuel + 1, env, k =>
    match blookup (st.getFrame env).bindings k with
    | some v => some v
    | none =>
      match (st.getFrame env).parent with
      | some p => envLookup st fuel p k
      | none => blookup st.root k

/-- Evaluation errors.  Each constructor corresponds to one `env.throw`
site in the source (its exact message is produced by `Err.message`);
`native` stands for a native JS exception (e.g. spreading a
non-iterable); `noFuel` is the embedding's representation of
non-termination and is not a JS exception. -/
inductive Err where
  | undefinedSymbol (name : String)
  | notIndexable
  | noIfCondition
  | noIfTrueBranch
  | badArgDef (arg : Val)
  | native (message : String)
  | noFuel

/-- The message carried by each `env.throw` call in the source.  The
`badArgDef` message in the source appends the pretty-printed argument
via `syntaxTreeToString` (whose file is not in the sources); the
offending argument is carried structurally instead. -/
def Err.message : Err → String
  | .undefinedSymbol n => "Undefined symbol \"" ++ n ++ "\""
  | .notIndexable => "Cannot access member: not an array or object"
  | .noIfCondition => "No condition for if"
  | .noIfTrueBranch => "No true branch for if"
  | .badArgDef _ => "Unknown argument expression"
  | .native m => m
  | .noFuel => "out of fuel"

/-- The value a `try` form binds in its handler: the thrown error
object.  Modelled from the spec: `env.throw(err)` raises `err`, an
object carrying a `message`. -/
def Err.toVal (e : Err) : Val := .errObj e.message

/-- JS `+` of the standard bindings (`add`).  Modelled from the spec:
the standard-bindings module is not in the sources; the spec only
requires the host to supply `+`.  Number addition, string
concatenation, number-string concatenation, NaN propagation. -/
def jsAdd : Val → Val → Val
  | .num a, .num b => .num (a + b)
  | .str a, .str b => .str (a ++ b)
  | .num a, .str b => .str (toString a ++ b)
  | .str a, .num b => .str (a ++ toString b)
  | _, _ => .nan

/-- Numeric binary host primitive on numbers, NaN otherwise.  Modelled
from the spec (standard bindings not in the sources). -/
def jsArith (f : Int → Int → Int) : Val → Val → Val
  | .num a, .num b => .num (f a b)
  | _, _ => .nan

/-- Host `/`.  Exact integer quotients only: fractional results are not
representable in the integer value model and no claim evaluates `/`. -/
def jsDiv : Val → Val → Val
  | .num a, .num b =>
    if b ≠ 0 ∧ a % b = 0 then .num (a / b) else .nan
  | _, _ => .nan

/-- Dispatch of host functions by registration name.  Modelled from the
spec: host functions are opaque callables taking evaluated positional
arguments. -/
def applyHost : String → List Val → Except Err Val
  | "+", [a, b] => .ok (jsAdd a b)
  | "-", [a, b] => .ok (jsArith (fun x y => x - y) a b)
  | "*", [a, b] => .ok (jsArith (fun x y => x * y) a b)
  | "/", [a, b] => .ok (jsDiv a b)
  | _, _ => .error (.native "unsupported host function call")

/-- The root bindings registered at startup.  Modelled from the spec
and the standard-bindings table (`binaryOps`, `constants`): only the
entries the claims exercise are included. -/
def stdRoot : List (String × Val) :=
  [("+", .hostFn "+" false), ("-", .hostFn "-" false),
   ("*", .hostFn "*" false), ("/", .hostFn "/" false),
   ("true", .bool true), ("false", .bool false)]

/-- Truthiness test of the macro flag (`v.isMacro`) used by `expandMacro`. -/
def isMacroVal (st : St) : Val → Bool
  | .closure _ _ _ m _ => m
  | .hostFn _ m => m
  | .obj r =>
    (match blookup (st.getObj r) "isMacro" with
     | some v => v.truthy
     | none => false)
  | _ => false

/-- The guard of `expandMacro`'s loop for a head symbol `s`:
`env[ast[0]] && env[ast[0]].isMacro`.  Property access on environments
is modelled as scope-chain resolution (spec section 3;
`environment.ts` is not in the sources). -/
def macroHead (st : St) (env : Nat) (s : String) : Bool :=
  match envLookup st (st.frames.length + 1) env s with
  | some v => v.truthy && isMacroVal st v
  | none => false

/-- Which JS exceptions a `try` catches: every thrown error; `noFuel`
(the embedding's stand-in for non-termination) is not an exception. -/
def caughtByTry : Err → Bool
  | .noFuel => false
  | _ => true

/-- Property read (`value[key]`) used by the `get` member walk: heap objects by
coerced key, arrays by integer index (plus the JS `length` property),
error objects expose `message`, environment handles their own
bindings.  A stored `nil` reads as absent (`value[key] == null`). -/
def memberRead (st : St) : Val → Val → Option Val
  | .obj r, key =>
    (match blookup (st.getObj r) (jsKey key) with
     | some .nil => none
     | o => o)
  | .list xs, .num n =>
    if 0 ≤ n ∧ n < (xs.length : Int) then
      (match xs.getD n.toNat .nil with
       | .nil => none
       | v => some v)
    else none
  | .list xs, .str s => if s = "length" then some (.num xs.length) else none
  | .errObj m, .str s => if s = "message" then some (.str m) else none
  | .envRef i, key =>
    (match blookup (st.getFrame i).bindings (jsKey key) with
     | some .nil => none
     | o => o)
  | _, _ => none

/-- Function renaming (`Object.defineProperty(value, 'name', ...)`) in the `def` case: if
the assigned value is a function it takes the variable name (display
only; host functions dispatch by registration name, so only closures
record it). -/
def renameFn (v : Val) (nm : String) : Val :=
  match v with
  | .closure a b s m _ => .closure a b s m nm
  | v => v

/-- List evaluation (`ast.map((...a) => evaluate(a[0], env))`): evaluate every element of
a list left to right, the first error aborting (higher-order in the
evaluation function to keep recursion structural on the list). -/
def mapEvalHO (ev : Val → St → Except Err Val × St) :
    List Val → St → Except Err (List Val) × St
  | [], st => (.ok [], st)
  | x :: xs, st =>
    match ev x st with
    | (.error e, st') => (.error e, st')
    | (.ok v, st') =>
      match mapEvalHO ev xs st' with
      | (.error e, st'') => (.error e, st'')
      | (.ok vs, st'') => (.ok (v :: vs), st'')

/-- The `list` special form's item loop: `['...', e]` entries evaluate
`expr.slice(1)` and splice the resulting sequence (spreading a
non-list is the native `TypeError`). -/
def evalListHO (ev : Val → St → Except Err Val × St) :
    List Val → St → Except Err (List Val) × St
  | [], st => (.ok [], st)
  | x :: xs, st =>
    match x with
    | .list (.str "..." :: restEls) =>
      (match ev (.list restEls) st with
       | (.error e, st') => (.error e, st')
       | (.ok (.list vs), st') =>
         (match evalListHO ev xs st' with
          | (.error e, st'') => (.error e, st'')
          | (.ok tl, st'') => (.ok (vs ++ tl), st''))
       | (.ok _, st') => (.error (.native "spread of non-list"), st'))
    | _ =>
      (match ev x st with
       | (.error e, st') => (.error e, st')
       | (.ok v, st') =>
         (match evalListHO ev xs st' with
          | (.error e, st'') => (.error e, st'')
          | (.ok tl, st'') => (.ok (v :: tl), st'')))

/-- The `obj` special form's reduce over key/value pair entries,
translated clause by clause: entries that are nil or not a list are
skipped; a pair with no second element is either a spread
(`['...', e]`, merging an evaluated object) or the `{ k }` shorthand
(`[k, k]`); keys that are object-typed expressions are evaluated,
other keys are used as given; values are always evaluated. -/
def evalObjPairsHO (ev : Val → St → Except Err Val × St) :
    List Val → List (String × Val) → St → Except Err (List (String × Val)) × St
  | [], acc, st => (.ok acc, st)
  | pair :: rest, acc, st =>
    match pair with
    | .list pelems =>
      if (pelems.getD 1 .nil).isNil then
        match pelems.getD 0 .nil with
        | .list (.str "..." :: spreadEls) =>
          (match ev (.list spreadEls) st with
           | (.error e, st') => (.error e, st')
           | (.ok (.obj r), st') =>
             evalObjPairsHO ev rest
               ((st'.getObj r).foldl (fun b kv => bset b kv.1 kv.2) acc) st'
           | (.ok _, st') =>
             -- Object.assign with a primitive source is a no-op
             -- (string character spreading is a corner not modelled).
             evalObjPairsHO ev rest acc st')
        | left =>
          -- pair = [left, left]
          (match (if left.isJsObject then ev left st else (.ok left, st)) with
           | (.error e, st') => (.error e, st')
           | (.ok keyV, st') =>
             (match ev left st' with
              | (.error e, st'') => (.error e, st'')
              | (.ok v, st'') =>
                evalObjPairsHO ev rest (bset acc (jsKey keyV) v) st''))
      else
        (match (if (pelems.getD 0 .nil).isJsObject
                then ev (pelems.getD 0 .nil) st
                else (.ok (pelems.getD 0 .nil), st)) with
         | (.error e, st') => (.error e, st')
         | (.ok keyV, st') =>
           (match ev (pelems.getD 1 .nil) st' with
            | (.error e, st'') => (.error e, st'')
            | (.ok v, st'') =>
              evalObjPairsHO ev rest (bset acc (jsKey keyV) v) st''))
    | _ => evalObjPairsHO ev rest acc st

/-- The member walk of the `get` special form.  A `['def', key, value]`
member performs a set on the current value and short-circuits; a member
evaluating to a function is applied to the value; a key that is not a
string or number, a missing (or nil) property, or the key `__proto__`
short-circuits to nil; a function-valued property is method-bound
(`.bind(value)` does not change a closure's behaviour since `this` is
unused, so binding is the identity here). -/
def getMembersHO (ev : Val → St → Except Err Val × St)
    (ap : Val → List Val → St → Except Err Val × St) :
    List Val → Val → St → Except Err Val × St
  | [], value, st => (.ok value, st)
  | m :: rest, value, st =>
    match m with
    | .list (.str "def" :: dargs) =>
      (match ev (dargs.getD 1 .nil) st with
       | (.error e, st') => (.error e, st')
       | (.ok rhs, st') =>
         match value with
         | .obj r =>
           (.ok rhs, st'.setObj r (bset (st'.getObj r) (jsKey (dargs.getD 0 .nil)) rhs))
         | _ =>
           -- array element assignment is unobservable in the immutable
           -- list model; the assigned value is still returned
           (.ok rhs, st'))
    | _ =>
      (match ev m st with
       | (.error e, st') => (.error e, st')
       | (.ok key, st') =>
         if key.isFn then
           (match ap key [value] st' with
            | (.error e, st'') => (.error e, st'')
            | (.ok v, st'') => getMembersHO ev ap rest v st'')
         else
           match key with
           | .str k =>
             if k = "__proto__" then (.ok .nil, st')
             else
               (match memberRead st' value (.str k) with
                | none => (.ok .nil, st')
                | some v => getMembersHO ev ap rest v st')
           | .num n =>
             (match memberRead st' value (.num n) with
              | none => (.ok .nil, st')
              | some v => getMembersHO ev ap rest v st')
           | _ => (.ok .nil, st'))

/-- The `args.forEach` loop of `bindFunctionScope` over the argument definitions,
translated clause by clause; `i` is the current index and `given` the
full list of call arguments.  Note the source iterates over every
definition with no break: the `'&'` case binds `args[i+1]` to
`givenArgs.slice(i)` and iteration then continues with `args[i+1]`
itself. -/
def bindArgsHO (evE : Val → St → Except Err Val × St)
    (setB : String → Val → St → St) :
    List Val → Nat → List Val → St → Except Err Unit × St
  | [], _, _, st => (.ok (), st)
  | a :: rest, i, given, st =>
    match a with
    | .str s =>
      if s = "&" then
        bindArgsHO evE setB rest (i + 1) given
          (setB (jsKey (rest.headD .nil)) (.list (given.drop i)) st)
      else
        bindArgsHO evE setB rest (i + 1) given (setB s (given.getD i .nil) st)
    | .list l =>
      if (l.getD 0 .nil).strEq "def" && !(l.getD 1 .nil).isNil then
        if !(given.getD i .nil).isNil then
          bindArgsHO evE setB rest (i + 1) given
            (setB (jsKey (l.getD 1 .nil)) (given.getD i .nil) st)
        else
          (match evE (l.getD 2 .nil) st with
           | (.error e, st') => (.error e, st')
           | (.ok dv, st') =>
             bindArgsHO evE setB rest (i + 1) given
               (setB (jsKey (l.getD 1 .nil)) dv st'))
      else if (l.getD 0 .nil).strEq "..." && !(l.getD 1 .nil).isNil then
        bindArgsHO evE setB rest (i + 1) given
          (setB (jsKey (l.getD 1 .nil)) (.list (given.drop i)) st)
      else
        (match evE (.list [.list l]) st with
         | (.error e, st') => (.error e, st')
         | (.ok _, st') => bindArgsHO evE setB rest (i + 1) given st')
    | _ => (.error (.badArgDef a), st)

/-- The `let` special form's pair loop: even positions are keys, odd
positions values evaluated in the new scope. -/
def letPairsHO (ev : Val → St → Except Err Val × St)
    (setB : String → Val → St → St) :
    List Val → St → Except Err Unit × St
  | [], st => (.ok (), st)
  | [_], st => (.ok (), st)
  | k :: v :: rest, st =>
    (match ev v st with
     | (.error e, st') => (.error e, st')
     | (.ok vv, st') => letPairsHO ev setB rest (setB (jsKey k) vv st'))

/-- The mutually recursive entry points of the evaluator, fused into a
single fuel-indexed function so that recursion stays structural (and
therefore computable by the kernel). -/
inductive Call where
  | eval (ast : Val) (env : Nat)
  | evalExpr (ast : Val) (env : Nat)
  | expand (ast : Val) (env : Nat)
  | apply (f : Val) (args : List Val)
  | bindScope (parent : Nat) (argDefs : List Val) (given : List Val)

/-- The evaluator.  `Call.eval` is `evaluate` (the trampoline: each
loop iteration and each recursive call costs one unit of fuel),
`Call.evalExpr` is `evaluateExpression`, `Call.expand` is the macro
expansion loop, `Call.apply` invokes a callable on argument values, and
`Call.bindScope` is `bindFunctionScope` (it appends the new frame, so
its id is the prior `frames.length`). -/
def go : Nat → Call → St → Except Err Val × St
  | 0, _, st => (.error .noFuel, st)
  | fuel + 1, c, st =>
    match c with
    | .evalExpr ast env =>
      match ast with
      | .list xs =>
        (match mapEvalHO (fun a s => go fuel (.eval a env) s) xs st with
         | (.error e, st') => (.error e, st')
         | (.ok vs, st') => (.ok (.list vs), st'))
      | .str s =>
        if s = "local" then (.ok (.envRef env), st)
        else if s = "global" then
          (.ok (match (st.getFrame env).global with
                | some g => .envRef g
                | none => .nil), st)
        else
          (match envLookup st (st.frames.length + 1) env s with
           | some v => (.ok v, st)
           | none => (.error (.undefinedSymbol s), st))
      | v => (.ok v, st)
    | .expand ast env =>
      match ast with
      | .list (.str s :: args) =>
        if macroHead st env s then
          match envLookup st (st.frames.length + 1) env s with
          | some f =>
            (match go fuel (.apply f args) st with
             | (.error e, st') => (.error e, st')
             | (.ok ast2, st') => go fuel (.expand ast2 env) st')
          | none => (.ok ast, st)
        else (.ok ast, st)
      | _ => (.ok ast, st)
    | .apply f args =>
      match f with
      | .closure cargs body scope _ _ =>
        let benv := st.frames.length
        (match go fuel (.bindScope scope cargs args) st with
         | (.error e, st') => (.error e, st')
         | (.ok _, st') => go fuel (.eval body benv) st')
      | .hostFn name _ => (applyHost name args, st)
      | _ => (.error (.native "not a function"), st)
    | .bindScope parent argDefs given =>
      let benv := st.frames.length
      (match bindArgsHO (fun a s => go fuel (.evalExpr a benv) s)
              (fun k v s => s.setFrameBinding benv k v)
              argDefs 0 given (st.pushFrame (st.create parent)) with
       | (.error e, st') => (.error e, st')
       | (.ok _, st') => (.ok .nil, st'))
    | .eval ast0 env =>
      match ast0 with
      | .list _ =>
        (match go fuel (.expand ast0 env) st with
         | (.error e, st') => (.error e, st')
         | (.ok ast, st1) =>
           match ast with
           | .list xs =>
             let h := xs.getD 0 .nil
             if h.strEq "~" || h.strEq "macro" then
               (match go fuel (.eval (xs.getD 1 .nil) env) st1 with
                | (.error e, st') => (.error e, st')
                | (.ok fv, st') =>
                  match fv with
                  | .closure a b sc _ n => (.ok (.closure a b sc true n), st')
                  | .hostFn n _ => (.ok (.hostFn n true), st')
                  | .obj r =>
                    (.ok (.obj r),
                     st'.setObj r (bset (st'.getObj r) "isMacro" (.bool true)))
                  | v => (.ok v, st'))
             else if h.strEq "`" || h.strEq "expr" then
               (.ok (xs.getD 1 .nil), st1)
             else if h.strEq "eva" then
               (match go fuel (.eval (xs.getD 1 .nil) env) st1 with
                | (.error e, st') => (.error e, st')
                | (.ok ast2, st') => go fuel (.eval ast2 env) st')
             else if h.strEq "comment" then (.ok .nil, st1)
             else if h.strEq "list" then
               (match evalListHO (fun a s => go fuel (.eval a env) s)
                       (xs.drop 1) st1 with
                | (.error e, st') => (.error e, st')
                | (.ok vs, st') => (.ok (.list vs), st'))
             else if h.strEq "obj" then
               (match evalObjPairsHO (fun a s => go fuel (.eval a env) s)
                       (xs.drop 1) [] st1 with
                | (.error e, st') => (.error e, st')
                | (.ok b, st') => (.ok (.obj st'.objs.length), st'.pushObj b))
             else if h.strEq "def" then
               (match xs.getD 1 .nil with
                | .list vs =>
                  -- member target: rewrite on a copy of the target list
                  (match go fuel (.eval (vs.getLast?.getD .nil) env) st1 with
                   | (.error e, st') => (.error e, st')
                   | (.ok key, st') =>
                     go fuel
                       (.eval (.list (vs.dropLast ++
                         [.list [.str "def", key, xs.getD 2 .nil]])) env) st')
                | varName =>
                  (match go fuel (.eval (xs.getD 2 .nil) env) st1 with
                   | (.error e, st') => (.error e, st')
                   | (.ok v0, st') =>
                     let v := renameFn v0
                       (match varName with | .str nm => nm | _ => "anonymous")
                     match varName with
                     | .str nm =>
                       (.ok v, st'.setFrameBinding
                         ((st'.getFrame env).global.getD env) nm v)
                     | _ => (.ok .nil, st')))
             else if h.strEq "get" then
               (match go fuel (.eval (xs.getD 1 .nil) env) st1 with
                | (.error e, st') => (.error e, st')
                | (.ok rootValue, st') =>
                  if xs.length ≤ 2 then (.ok rootValue, st')
                  else if ¬ rootValue.isJsObject then (.error .notIndexable, st')
                  else getMembersHO (fun a s => go fuel (.eval a env) s)
                         (fun f as s => go fuel (.apply f as) s)
                         (xs.drop 2) rootValue st')
             else if h.strEq "try" then
               (match go fuel (.eval (xs.getD 1 .nil) env) st1 with
                | (.ok v, st') => (.ok v, st')
                | (.error e, st') =>
                  if caughtByTry e then
                    match xs.getD 2 .nil with
                    | .list hl =>
                      let benv := st'.frames.length
                      (match go fuel
                              (.bindScope env [hl.getD 1 .nil] [Err.toVal e]) st' with
                       | (.error e2, st'') => (.error e2, st'')
                       | (.ok _, st'') =>
                         go fuel (.eval (hl.getD 2 .nil) benv) st'')
                    | _ => (.ok .nil, st')
                  else (.error e, st'))
             else if h.strEq "λ" || h.strEq "lambda" then
               (.ok (.closure
                 (match xs.getD 1 .nil with | .list a => a | _ => [])
                 (xs.getD 2 .nil) env false ""), st1)
             else if h.strEq "let" then
               (match xs.getD 1 .nil with
                | .list pairs =>
                  let benv := st1.frames.length
                  (match letPairsHO (fun a s => go fuel (.eval a benv) s)
                          (fun k v s => s.setFrameBinding benv k v)
                          pairs (st1.pushFrame (st1.create env)) with
                   | (.error e, st') => (.error e, st')
                   | (.ok _, st') => go fuel (.eval (xs.getD 2 .nil) benv) st')
                | _ => (.ok .nil, st1))
             else if h.strEq "do" then
               (match xs.drop 1 with
                | [] => (.ok .nil, st1)
                | rest =>
                  (match mapEvalHO (fun a s => go fuel (.eval a env) s)
                          rest.dropLast st1 with
                   | (.error e, st') => (.error e, st')
                   | (.ok _, st') =>
                     go fuel (.eval (rest.getLast?.getD .nil) env) st'))
             else if h.strEq "if" then
               (if (xs.getD 1 .nil).isNil then (.error .noIfCondition, st1)
                else if (xs.getD 2 .nil).isNil then (.error .noIfTrueBranch, st1)
                else if (xs.getD 3 .nil).isNil then
                  match go fuel (.eval (xs.getD 1 .nil) env) st1 with
                  | (.error e, st') => (.error e, st')
                  | (.ok cv, st') =>
                    if cv.truthy then go fuel (.eval (xs.getD 2 .nil) env) st'
                    else (.ok .nil, st')
                else
                  match go fuel (.eval (xs.getD 1 .nil) env) st1 with
                  | (.error e, st') => (.error e, st')
                  | (.ok cv, st') =>
                    go fuel (.eval
                      (if cv.truthy then xs.getD 2 .nil else xs.getD 3 .nil)
                      env) st')
             else
               -- invocation of a list form
               (match mapEvalHO (fun a s => go fuel (.eval a env) s) xs st1 with
                | (.error e, st') => (.error e, st')
                | (.ok el, st') =>
                  match el.getD 0 .nil with
                  | .nil => (.ok .nil, st')
                  | .list (.str "lambda" :: fr) =>
                    (match fr.getD 0 .nil with
                     | .list cargs =>
                       let benv := st'.frames.length
                       (match go fuel (.bindScope env cargs (el.drop 1)) st' with
                        | (.error e, st'') => (.error e, st'')
                        | (.ok _, st'') =>
                          go fuel (.eval (fr.getD 1 .nil) benv) st'')
                     | _ => (.error (.native "args is not a list"), st'))
                  | .closure cargs body scope _ _ =>
                    let benv := st'.frames.length
                    (match go fuel (.bindScope scope cargs (el.drop 1)) st' with
                     | (.error e, st'') => (.error e, st'')
                     | (.ok _, st'') => go fuel (.eval body benv) st'')
                  | .hostFn name _ => (applyHost name (el.drop 1), st')
                  | fv => (.ok fv, st'))
           | a => go fuel (.evalExpr a env) st1)
      | a => go fuel (.evalExpr a env) st

/-- Entry point `evaluate(ast, env)` with an explicit environment. -/
def evaluate (fuel : Nat) (ast : Val) (env : Nat) (st : St) :
    Except Err Val × St :=
  go fuel (.eval ast env) st

/-- Entry point `evaluateExpression(ast, env)`. -/
def evaluateExpression (fuel : Nat) (ast : Val) (env : Nat) (st : St) :
    Except Err Val × St :=
  go fuel (.evalExpr ast env) st

/-- Entry point `bindFunctionScope(env, args, givenArgs)`; the created scope is the
frame appended at index `st.frames.length`. -/
def bindFunctionScope (fuel : Nat) (parent : Nat) (argDefs : List Val)
    (given : List Val) (st : St) : Except Err Val × St :=
  go fuel (.bindScope parent argDefs given) st

/-- A fresh user environment over the standard root bindings, as
`createEnvironment()` produces for a top-level `evaluate` call
(modelled from the spec: `environment.ts` is not in the sources). -/
def initSt : St :=
  { frames := [{ bindings := [], parent := none, global := some 0 }],
    objs := [], root := stdRoot }

/-- Evaluate an AST in a fresh top-level environment. -/
def run (fuel : Nat) (ast : Val) : Except Err Val :=
  (evaluate fuel ast 0 initSt).1

/-- A canonical one-object state: `a` bound to heap object 0, whose
contents `ob` are arbitrary. -/
def objSt (ob : List (String × Val)) : St :=
  { frames := [{ bindings := [("a", .obj 0)], parent := none, global := some 0 }],
    objs := [ob], root := stdRoot }

/-! ## The Pratt parser

The rule table below is translated from `src/src/rules.ts` (token
spelling, left-binding power, and the prefix/infix handlers the claims
exercise).  The driver loop is modelled from the spec: the `Parser`
class with `nextExpression` is not in the sources.  The spec describes
standard top-down operator-precedence parsing: parse a prefix for the
current token, then, while the right-binding power is less than the
next token's left-binding power, consume that token and apply its infix
handler; each infix handler for a binary operator parses its right
operand at the operator's own power (`parser.nextExpression(this.power)`
in `rules.ts`).  The lexer (`tokenize.ts`, also absent) is modelled at
the token level: a token is a number, a symbol, or an operator/keyword
spelling. -/

inductive Tok where
  | num (n : Int)
  | sym (s : String)
  | op (s : String)
  deriving DecidableEq, Repr

/-- A binary-operator rule of `rules.ts`: token spelling, the head
symbol of the emitted AST node, and the rule's left-binding power. -/
structure BinRule where
  tok : String
  out : String
  power : Nat
  deriving DecidableEq, Repr

/-- Every rule of `rules.ts` whose infix handler emits
`[out, left, right]` with the right operand parsed at the rule's own
power, with the power declared in the source: `or`/`and` (emitting
`||`/`&&`), `||`, `&&` at 30; the comparisons at 40; `=` (emitting
`set`) at 10; `+`, `-` at 50; `*`, `/` at 60. -/
def binaryRules : List BinRule :=
  [⟨"or", "||", 30⟩, ⟨"and", "&&", 30⟩, ⟨"||", "||", 30⟩, ⟨"&&", "&&", 30⟩,
   ⟨"==", "==", 40⟩, ⟨"!=", "!=", 40⟩, ⟨"<=", "<=", 40⟩, ⟨"<", "<", 40⟩,
   ⟨">=", ">=", 40⟩, ⟨">", ">", 40⟩, ⟨"=", "set", 10⟩,
   ⟨"+", "+", 50⟩, ⟨"-", "-", 50⟩, ⟨"*", "*", 60⟩, ⟨"/", "/", 60⟩]

def findBin (s : String) : Option BinRule :=
  binaryRules.find? (fun r => r.tok == s)

/-- Left-binding power of an operator token, from the `power` fields of
`rules.ts` (rules outside `binaryRules` listed explicitly). -/
def rulePower (s : String) : Nat :=
  match findBin s with
  | some r => r.power
  | none =>
    if s = "(" then 80
    else if s = "=>" ∨ s = "!" ∨ s = "not" then 70
    else if s = "->" then 60
    else if s = "if" ∨ s = "?" then 20
    else if s = "," then 5
    else 0

/-- Numbers and symbols have power 0 (they never bind to the left). -/
def tokPower : Tok → Nat
  | .num _ => 0
  | .sym _ => 0
  | .op s => rulePower s

/-- JS numeric negation as performed by the `-` prefix handler
(`-parser.nextExpression(70)`): negation of a number, `NaN` for every
other operand (single-element numeric arrays, a JS coercion corner, are
not modelled; no claim reaches them). -/
def jsNeg : Val → Val
  | .num n => .num (-n)
  | _ => .nan

/-- The parser's two mutually recursive activities, fused for
structural (kernel-computable) recursion: parse an expression at a
right-binding power, or run the infix loop with an already-parsed left
operand. -/
inductive PC where
  | expr (rbp : Nat)
  | loop (rbp : Nat) (left : Option Val)

/-- Modelled from the spec: `Parser.nextExpression` (top-down
operator-precedence driver; `Parser.ts` is not in the sources), with
the per-token behaviour translated from the handlers in `rules.ts`:
  * number prefix: the number itself; symbol prefix: the name;
  * `!` and `not` prefix: `['!', nextExpression(0)]`;
  * `+` prefix: `nextExpression(70)` (no wrapping);
  * `-` prefix: JS numeric negation of `nextExpression(70)`;
  * `(` prefix: inner expression at power 0, then a `nextExpression(80)`
    call that consumes the `)` (whose prefix handler yields undefined);
  * every `binaryRules` infix: `[out, left, nextExpression(power)]`.
A prefix handler that is empty in the source (`prefix() {}`) yields
`none` (JS `undefined`).  Infix handlers outside the modelled subset
stop the loop; no claim input reaches them. -/
def pgo : Nat → PC → List Tok → Option Val × List Tok
  | 0, _, ts => (none, ts)
  | fuel + 1, .expr rbp, ts =>
    match ts with
    | [] => (none, [])
    | t :: rest =>
      let p : Option Val × List Tok :=
        match t with
        | .num n => (some (.num n), rest)
        | .sym s => (some (.str s), rest)
        | .op s =>
          if s = "!" ∨ s = "not" then
            let q := pgo fuel (.expr 0) rest
            (some (.list [.str "!", q.1.getD .nil]), q.2)
          else if s = "+" then
            pgo fuel (.expr 70) rest
          else if s = "-" then
            let q := pgo fuel (.expr 70) rest
            (some (jsNeg (q.1.getD .nil)), q.2)
          else if s = "(" then
            let q := pgo fuel (.expr 0) rest
            let q2 := pgo fuel (.expr 80) q.2
            (q.1, q2.2)
          else (none, rest)
      pgo fuel (.loop rbp p.1) p.2
  | fuel + 1, .loop rbp left, ts =>
    match ts with
    | [] => (left, [])
    | t :: rest =>
      if rbp < tokPower t then
        match t with
        | .op s =>
          (match findBin s with
           | some r =>
             let q := pgo fuel (.expr r.power) rest
             pgo fuel
               (.loop rbp (some (.list [.str r.out, left.getD .nil, q.1.getD .nil])))
               q.2
           | none => (left, t :: rest))
        | _ => (left, t :: rest)
      else (left, t :: rest)

/-- Parse a token stream as one expression (`nextExpression(0)`). -/
def parseToks (fuel : Nat) (ts : List Tok) : Option Val × List Tok :=
  pgo fuel (.expr 0) ts

end Expreva

namespace Expreva

/-! ## Helper lemmas -/

theorem isNil_nil : Val.nil.isNil = true := rfl

theorem expand_not (st : St) (env : Nat) (s : String) (args : List Val) (n : Nat)
    (hm : macroHead st env s = false) :
    go (n + 1) (.expand (.list (.str s :: args)) env) st
      = (.ok (.list (.str s :: args)), st) := by
  simp [go, hm]

theorem eval_quote (st : St) (env : Nat) (v : Val) (n : Nat)
    (hm : macroHead st env "`" = false) :
    go (n + 1 + 1) (.eval (.list [.str "`", v]) env) st = (.ok v, st) := by
  have hx := expand_not st env "`" [v] n hm
  generalize n + 1 = m at hx ⊢
  simp [go, hx, Val.strEq]

theorem eval_sym (st : St) (env : Nat) (s : String) (v : Val) (n : Nat)
    (h1 : s ≠ "local") (h2 : s ≠ "global")
    (ha : envLookup st (st.frames.length + 1) env s = some v) :
    go (n + 1 + 1) (.eval (.str s) env) st = (.ok v, st) := by
  simp [go, h1, h2, ha]

theorem set_append_len (l : List Frame) (a b : Frame) :
    (l ++ [a]).set l.length b = l ++ [b] := by
  induction l with
  | nil => rfl
  | cons x xs ih => simp [List.set, ih]

theorem getD_append_len (l : List Frame) (f d : Frame) :
    (l ++ [f]).getD l.length d = f := by
  induction l with
  | nil => rfl
  | cons x xs ih => simp only [List.cons_append, List.length_cons, List.getD]; simp [ih, List.getD]

theorem getFrame_pushFrame_len (st : St) (f : Frame) :
    (st.pushFrame f).getFrame st.frames.length = f := by
  simp [St.pushFrame, St.getFrame, getD_append_len]

theorem setFrameBinding_pushFrame_len (st : St) (f : Frame) (k : String) (v : Val) :
    (st.pushFrame f).setFrameBinding st.frames.length k v
      = st.pushFrame { f with bindings := bset f.bindings k v } := by
  unfold St.setFrameBinding St.setFrame
  rw [getFrame_pushFrame_len]
  simp [St.pushFrame, set_append_len]

theorem bindScope_single (st : St) (parent : Nat) (anm : String) (v : Val) (n : Nat)
    (h : anm ≠ "&") :
    go (n + 1) (.bindScope parent [.str anm] [v]) st
      = (.ok .nil, st.pushFrame
          { bindings := [(anm, v)], parent := some parent,
            global := (st.getFrame parent).global }) := by
  simp [go, bindArgsHO, h, St.create, setFrameBinding_pushFrame_len, bset]

theorem getFrame_setFrameBinding_ne (st : St) (i j : Nat) (k : String) (v : Val)
    (h : j ≠ i) : (st.setFrameBinding i k v).getFrame j = st.getFrame j := by
  simp [St.setFrameBinding, St.setFrame, St.getFrame, List.getD_eq_getElem?_getD,
        List.getElem?_set_ne (Ne.symm h)]

/-! ## The if form (claim C3) -/

theorem evalIf_noCond (fuel env : Nat) (st : St) (rest : List Val)
    (hm : macroHead st env "if" = false)
    (hc : (rest.getD 0 .nil).isNil = true) :
    evaluate (fuel + 1 + 1) (.list (.str "if" :: rest)) env st
      = (.error .noIfCondition, st) := by
  simp only [List.getD_eq_getElem?_getD] at hc
  simp [evaluate, go, hm, hc, Val.strEq]

theorem evalIf_noThen (fuel env : Nat) (st : St) (rest : List Val)
    (hm : macroHead st env "if" = false)
    (hc : (rest.getD 0 .nil).isNil = false)
    (ht : (rest.getD 1 .nil).isNil = true) :
    evaluate (fuel + 1 + 1) (.list (.str "if" :: rest)) env st
      = (.error .noIfTrueBranch, st) := by
  simp only [List.getD_eq_getElem?_getD] at hc ht
  simp [evaluate, go, hm, hc, ht, Val.strEq]

theorem evalIf_noElse_false (fuel env : Nat) (st st1 : St) (c t : Val) (cv : Val)
    (hm : macroHead st env "if" = false)
    (hc : c.isNil = false) (ht : t.isNil = false)
    (hev : evaluate (fuel + 1) c env st = (.ok cv, st1))
    (hf : cv.truthy = false) :
    evaluate (fuel + 1 + 1) (.list [.str "if", c, t]) env st = (.ok .nil, st1) := by
  simp only [evaluate] at hev ⊢
  have hx := expand_not st env "if" [c, t] fuel hm
  generalize fuel + 1 = n at hx hev ⊢
  simp [go, hx, hev, hf, hc, ht, Val.strEq, isNil_nil]

theorem evalIf_noElse_true (fuel env : Nat) (st st1 : St) (c t : Val) (cv : Val)
    (hm : macroHead st env "if" = false)
    (hc : c.isNil = false) (ht : t.isNil = false)
    (hev : evaluate (fuel + 1) c env st = (.ok cv, st1))
    (hf : cv.truthy = true) :
    evaluate (fuel + 1 + 1) (.list [.str "if", c, t]) env st
      = evaluate (fuel + 1) t env st1 := by
  simp only [evaluate] at hev ⊢
  have hx := expand_not st env "if" [c, t] fuel hm
  generalize fuel + 1 = n at hx hev ⊢
  simp [go, hx, hev, hf, hc, ht, Val.strEq, isNil_nil]

theorem evalIf_else (fuel env : Nat) (st st1 : St) (c t e : Val) (cv : Val)
    (hm : macroHead st env "if" = false)
    (hc : c.isNil = false) (ht : t.isNil = false) (he : e.isNil = false)
    (hev : evaluate (fuel + 1) c env st = (.ok cv, st1)) :
    evaluate (fuel + 1 + 1) (.list [.str "if", c, t, e]) env st
      = evaluate (fuel + 1) (if cv.truthy then t else e) env st1 := by
  simp only [evaluate] at hev ⊢
  have hx := expand_not st env "if" [c, t, e] fuel hm
  generalize fuel + 1 = n at hx hev ⊢
  simp [go, hx, hev, hc, ht, he, Val.strEq, isNil_nil]

/-- C3: for an `['if', ...]` form (whose head is not shadowed by a
macro), a missing (nil) condition fails with the MalformedIf error
`'No condition for if'`; a missing then-branch fails with
`'No true branch for if'`; a missing else-branch returns nil when the
condition evaluates falsy; otherwise evaluation continues with the
then- or else-branch selected by the condition's truthiness. -/
theorem C3_if_semantics :
    (∀ fuel env st (rest : List Val), macroHead st env "if" = false →
       (rest.getD 0 .nil).isNil = true →
       evaluate (fuel + 1 + 1) (.list (.str "if" :: rest)) env st
         = (.error .noIfCondition, st))
  ∧ (∀ fuel env st (rest : List Val), macroHead st env "if" = false →
       (rest.getD 0 .nil).isNil = false → (rest.getD 1 .nil).isNil = true →
       evaluate (fuel + 1 + 1) (.list (.str "if" :: rest)) env st
         = (.error .noIfTrueBranch, st))
  ∧ (∀ fuel env st st1 c t cv, macroHead st env "if" = false →
       c.isNil = false → t.isNil = false →
       evaluate (fuel + 1) c env st = (.ok cv, st1) → cv.truthy = false →
       evaluate (fuel + 1 + 1) (.list [.str "if", c, t]) env st = (.ok .nil, st1))
  ∧ (∀ fuel env st st1 c t cv, macroHead st env "if" = false →
       c.isNil = false → t.isNil = false →
       evaluate (fuel + 1) c env st = (.ok cv, st1) → cv.truthy = true →
       evaluate (fuel + 1 + 1) (.list [.str "if", c, t]) env st
         = evaluate (fuel + 1) t env st1)
  ∧ (∀ fuel env st st1 c t e cv, macroHead st env "if" = false →
       c.isNil = false → t.isNil = false → e.isNil = false →
       evaluate (fuel + 1) c env st = (.ok cv, st1) →
       evaluate (fuel + 1 + 1) (.list [.str "if", c, t, e]) env st
         = evaluate (fuel + 1) (if cv.truthy then t else e) env st1) :=
  ⟨fun fuel env st rest hm hc => evalIf_noCond fuel env st rest hm hc,
   fun fuel env st rest hm hc ht => evalIf_noThen fuel env st rest hm hc ht,
   fun fuel env st st1 c t cv hm hc ht hev hf =>
     evalIf_noElse_false fuel env st st1 c t cv hm hc ht hev hf,
   fun fuel env st st1 c t cv hm hc ht hev hf =>
     evalIf_noElse_true fuel env st st1 c t cv hm hc ht hev hf,
   fun fuel env st st1 c t e cv hm hc ht he hev =>
     evalIf_else fuel env st st1 c t e cv hm hc ht he hev⟩

/-- C3 witness: the theorem applied at concrete inputs: `['if']` fails
with the missing-condition error; `['if', 0, 1]` (falsy condition, no
else) yields nil; `['if', 1, 2, 3]` selects the then-branch. -/
theorem C3_if_semantics_witness :
    evaluate (3 + 1 + 1) (.list [.str "if"]) 0 initSt = (.error .noIfCondition, initSt)
  ∧ evaluate (3 + 1 + 1) (.list [.str "if", .num 0, .num 1]) 0 initSt
      = (.ok .nil, initSt)
  ∧ evaluate (3 + 1 + 1) (.list [.str "if", .num 1, .num 2, .num 3]) 0 initSt
      = evaluate (3 + 1) (if (Val.num 1).truthy then .num 2 else .num 3) 0 initSt :=
  ⟨C3_if_semantics.1 3 0 initSt [] rfl rfl,
   C3_if_semantics.2.2.1 3 0 initSt initSt (.num 0) (.num 1) (.num 0) rfl rfl rfl rfl rfl,
   C3_if_semantics.2.2.2.2 3 0 initSt initSt (.num 1) (.num 2) (.num 3) (.num 1)
     rfl rfl rfl rfl rfl⟩

end Expreva

namespace Expreva

/-! ## The def form (claims C2 and C9) -/

theorem evalDef_global (fuel env : Nat) (st st1 : St) (nm : String) (vexp val : Val)
    (hm : macroHead st env "def" = false)
    (hev : evaluate (fuel + 1) vexp env st = (.ok val, st1)) :
    evaluate (fuel + 1 + 1) (.list [.str "def", .str nm, vexp]) env st
      = (.ok (renameFn val nm),
         st1.setFrameBinding ((st1.getFrame env).global.getD env) nm (renameFn val nm)) := by
  simp only [evaluate] at hev ⊢
  have hx := expand_not st env "def" [.str nm, vexp] fuel hm
  generalize fuel + 1 = n at hx hev ⊢
  simp [go, hx, hev, Val.strEq]

theorem eval_get_defMember (st : St) (env r : Nat) (k : String) (v : Val) (n : Nat)
    (hmg : macroHead st env "get" = false)
    (hmq : macroHead st env "`" = false)
    (ha : envLookup st (st.frames.length + 1) env "a" = some (.obj r)) :
    go (n + 1 + 1 + 1)
      (.eval (.list [.str "get", .str "a",
        .list [.str "def", .str k, .list [.str "`", v]]]) env) st
      = (.ok v, st.setObj r (bset (st.getObj r) k v)) := by
  have hx := expand_not st env "get"
    [.str "a", .list [.str "def", .str k, .list [.str "`", v]]] (n + 1) hmg
  have hs := eval_sym st env "a" (.obj r) n (by decide) (by decide) ha
  have hq := eval_quote st env v n hmq
  generalize n + 1 + 1 = m at hx hs hq ⊢
  simp [go, hx, hs, hq, Val.strEq, getMembersHO, jsKey, Val.isFn, Val.isJsObject]

theorem eval_def_member (st : St) (env r : Nat) (k : String) (v : Val) (n : Nat)
    (hmd : macroHead st env "def" = false)
    (hmg : macroHead st env "get" = false)
    (hmq : macroHead st env "`" = false)
    (ha : envLookup st (st.frames.length + 1) env "a" = some (.obj r)) :
    evaluate (n + 1 + 1 + 1 + 1)
      (.list [.str "def",
        .list [.str "get", .str "a", .list [.str "`", .str k]],
        .list [.str "`", v]]) env st
      = (.ok v, st.setObj r (bset (st.getObj r) k v)) := by
  simp only [evaluate]
  have hx := expand_not st env "def"
    [.list [.str "get", .str "a", .list [.str "`", .str k]], .list [.str "`", v]]
    (n + 1 + 1) hmd
  have hq := eval_quote st env (.str k) (n + 1) hmq
  have hg := eval_get_defMember st env r k v n hmg hmq ha
  generalize n + 1 + 1 + 1 = m at hx hq hg ⊢
  simp [go, hx, hq, hg, Val.strEq]

/-- C2: a `['def', name, value]` form with a plain-symbol target binds
the evaluated value under `name` in the frame designated by the
environment's `global` handle (the environment itself when it has
none), leaving every other frame - in particular the current local
scope when it is not the global one - untouched; a `['def', target,
value]` form whose target is a member-access list instead mutates the
target object in the object heap and leaves every environment frame
unchanged. -/
theorem C2_def_scope :
    (∀ fuel env st st1 nm vexp val, macroHead st env "def" = false →
       evaluate (fuel + 1) vexp env st = (.ok val, st1) →
       evaluate (fuel + 1 + 1) (.list [.str "def", .str nm, vexp]) env st
         = (.ok (renameFn val nm),
            st1.setFrameBinding ((st1.getFrame env).global.getD env) nm
              (renameFn val nm))
       ∧ ∀ j, j ≠ (st1.getFrame env).global.getD env →
           (st1.setFrameBinding ((st1.getFrame env).global.getD env) nm
             (renameFn val nm)).getFrame j = st1.getFrame j)
  ∧ (∀ n env st r k v, macroHead st env "def" = false →
       macroHead st env "get" = false → macroHead st env "`" = false →
       envLookup st (st.frames.length + 1) env "a" = some (.obj r) →
       evaluate (n + 1 + 1 + 1 + 1)
         (.list [.str "def",
           .list [.str "get", .str "a", .list [.str "`", .str k]],
           .list [.str "`", v]]) env st
         = (.ok v, st.setObj r (bset (st.getObj r) k v))
       ∧ (st.setObj r (bset (st.getObj r) k v)).frames = st.frames) :=
  ⟨fun fuel env st st1 nm vexp val hm hev =>
     ⟨evalDef_global fuel env st st1 nm vexp val hm hev,
      fun j hj => getFrame_setFrameBinding_ne st1 _ j nm (renameFn val nm) hj⟩,
   fun n env st r k v hmd hmg hmq ha =>
     ⟨eval_def_member st env r k v n hmd hmg hmq ha, rfl⟩⟩

/-- C2 witness: in a child scope (frame 1) of a user global (frame 0),
`['def', 'x', 5]` writes `x` into frame 0 and leaves frame 1 empty;
`a.b = 'hi'` with `a` an object mutates the heap object only. -/
theorem C2_def_scope_witness :
    (evaluate (3 + 1 + 1) (.list [.str "def", .str "x", .num 5]) 1
        { frames := [{ bindings := [], parent := none, global := some 0 },
                     { bindings := [], parent := some 0, global := some 0 }],
          objs := [], root := stdRoot }
      = (.ok (.num 5),
         St.setFrameBinding
           { frames := [{ bindings := [], parent := none, global := some 0 },
                        { bindings := [], parent := some 0, global := some 0 }],
             objs := [], root := stdRoot } 0 "x" (.num 5)))
  ∧ (evaluate (2 + 1 + 1 + 1 + 1)
        (.list [.str "def",
          .list [.str "get", .str "a", .list [.str "`", .str "b"]],
          .list [.str "`", .str "hi"]]) 0
        { frames := [{ bindings := [("a", .obj 0)], parent := none, global := some 0 }],
          objs := [[]], root := stdRoot }
      = (.ok (.str "hi"),
         { frames := [{ bindings := [("a", .obj 0)], parent := none, global := some 0 }],
           objs := [[("b", .str "hi")]], root := stdRoot })) := by
  constructor
  · exact (C2_def_scope.1 3 1
      { frames := [{ bindings := [], parent := none, global := some 0 },
                   { bindings := [], parent := some 0, global := some 0 }],
        objs := [], root := stdRoot }
      { frames := [{ bindings := [], parent := none, global := some 0 },
                   { bindings := [], parent := some 0, global := some 0 }],
        objs := [], root := stdRoot }
      "x" (.num 5) (.num 5) rfl rfl).1
  · exact (C2_def_scope.2 2 0
      { frames := [{ bindings := [("a", .obj 0)], parent := none, global := some 0 }],
        objs := [[]], root := stdRoot } 0 "b" (.str "hi") rfl rfl rfl rfl).1

end Expreva

namespace Expreva

/-! ## The get form (claims C4 and C5) -/

theorem evalGet_notIndexable (fuel env : Nat) (st st1 : St) (base bv : Val)
    (members : List Val)
    (hm : macroHead st env "get" = false)
    (hev : evaluate (fuel + 1) base env st = (.ok bv, st1))
    (hno : bv.isJsObject = false)
    (hne : members ≠ []) :
    evaluate (fuel + 1 + 1) (.list (.str "get" :: base :: members)) env st
      = (.error .notIndexable, st1) := by
  simp only [evaluate] at hev ⊢
  have hx := expand_not st env "get" (base :: members) fuel hm
  have hlen : ¬ ((Val.str "get" :: base :: members).length ≤ 2) := by
    have := List.length_pos.mpr hne
    simp only [List.length_cons]
    omega
  generalize fuel + 1 = n at hx hev ⊢
  simp [go, hx, hev, hno, hlen, hne, Val.strEq]

theorem evalGet_nil_member_obj (fuel env : Nat) (st st1 : St) (r : Nat)
    (base : Val) (k : String)
    (hm : macroHead st env "get" = false)
    (hmq : macroHead st1 env "`" = false)
    (hb : evaluate (fuel + 1 + 1) base env st = (.ok (.obj r), st1))
    (hmiss : k = "__proto__" ∨ memberRead st1 (.obj r) (.str k) = none) :
    evaluate (fuel + 1 + 1 + 1)
      (.list [.str "get", base, .list [.str "`", .str k]]) env st
      = (.ok .nil, st1) := by
  simp only [evaluate] at hb ⊢
  have hx := expand_not st env "get" [base, .list [.str "`", .str k]] (fuel + 1) hm
  have hq := eval_quote st1 env (.str k) fuel hmq
  generalize fuel + 1 + 1 = n at hx hb hq ⊢
  rcases hmiss with h | h
  · subst h
    simp [go, hx, hb, hq, Val.strEq, getMembersHO, Val.isFn, Val.isJsObject]
  · simp [go, hx, hb, hq, h, Val.strEq, getMembersHO, Val.isFn, Val.isJsObject]

theorem evalGet_nil_member_list (fuel env : Nat) (st st1 : St) (xs : List Val)
    (base : Val) (i : Int)
    (hm : macroHead st env "get" = false)
    (hmq : macroHead st1 env "`" = false)
    (hb : evaluate (fuel + 1 + 1) base env st = (.ok (.list xs), st1))
    (hmiss : memberRead st1 (.list xs) (.num i) = none) :
    evaluate (fuel + 1 + 1 + 1)
      (.list [.str "get", base, .list [.str "`", .num i]]) env st
      = (.ok .nil, st1) := by
  simp only [evaluate] at hb ⊢
  have hx := expand_not st env "get" [base, .list [.str "`", .num i]] (fuel + 1) hm
  have hq := eval_quote st1 env (.num i) fuel hmq
  generalize fuel + 1 + 1 = n at hx hb hq ⊢
  simp [go, hx, hb, hq, hmiss, Val.strEq, getMembersHO, Val.isFn, Val.isJsObject]

/-- C4: a `['get', base, ...members]` form with at least one member
whose base evaluates to a value that is not an object and not a list
(`typeof` not `'object'`: numbers, NaN, strings, booleans, nil,
functions) fails with the NotIndexable error
(`'Cannot access member: not an array or object'`); in particular
`a.b` where `a` is bound to the number `5` fails that way. -/
theorem C4_get_not_indexable :
    (∀ fuel env st st1 base bv (members : List Val),
       macroHead st env "get" = false →
       evaluate (fuel + 1) base env st = (.ok bv, st1) →
       bv.isJsObject = false → members ≠ [] →
       evaluate (fuel + 1 + 1) (.list (.str "get" :: base :: members)) env st
         = (.error .notIndexable, st1))
  ∧ (evaluate 9
       (.list [.str "get", .str "a", .list [.str "`", .str "b"]]) 0
       { frames := [{ bindings := [("a", .num 5)], parent := none, global := some 0 }],
         objs := [], root := stdRoot }).1
      = .error .notIndexable :=
  ⟨fun fuel env st st1 base bv members hm hev hno hne =>
     evalGet_notIndexable fuel env st st1 base bv members hm hev hno hne,
   rfl⟩

/-- C4 witness: the universal part applied to `a.b` with `a` bound to
the number `5`. -/
theorem C4_get_not_indexable_witness :
    evaluate (2 + 1 + 1)
      (.list [.str "get", .str "a", .list [.str "`", .str "b"]]) 0
      { frames := [{ bindings := [("a", .num 5)], parent := none, global := some 0 }],
        objs := [], root := stdRoot }
      = (.error .notIndexable,
         { frames := [{ bindings := [("a", .num 5)], parent := none, global := some 0 }],
           objs := [], root := stdRoot }) :=
  C4_get_not_indexable.1 2 0
    { frames := [{ bindings := [("a", .num 5)], parent := none, global := some 0 }],
      objs := [], root := stdRoot }
    { frames := [{ bindings := [("a", .num 5)], parent := none, global := some 0 }],
      objs := [], root := stdRoot }
    (.str "a") (.num 5) [.list [.str "`", .str "b"]] rfl rfl rfl (by simp)

/-- C5: a `['get', base, member]` access on an object or list value
returns nil (rather than raising) when the member key is the string
`__proto__` or when the key is not present in the value (no stored
entry, stored nil, or an out-of-range list index). -/
theorem C5_get_missing_nil :
    (∀ fuel env st st1 (r : Nat) base (k : String),
       macroHead st env "get" = false → macroHead st1 env "`" = false →
       evaluate (fuel + 1 + 1) base env st = (.ok (.obj r), st1) →
       (k = "__proto__" ∨ memberRead st1 (.obj r) (.str k) = none) →
       evaluate (fuel + 1 + 1 + 1)
         (.list [.str "get", base, .list [.str "`", .str k]]) env st
         = (.ok .nil, st1))
  ∧ (∀ fuel env st st1 (xs : List Val) base (i : Int),
       macroHead st env "get" = false → macroHead st1 env "`" = false →
       evaluate (fuel + 1 + 1) base env st = (.ok (.list xs), st1) →
       memberRead st1 (.list xs) (.num i) = none →
       evaluate (fuel + 1 + 1 + 1)
         (.list [.str "get", base, .list [.str "`", .num i]]) env st
         = (.ok .nil, st1)) :=
  ⟨fun fuel env st st1 r base k hm hmq hb hmiss =>
     evalGet_nil_member_obj fuel env st st1 r base k hm hmq hb hmiss,
   fun fuel env st st1 xs base i hm hmq hb hmiss =>
     evalGet_nil_member_list fuel env st st1 xs base i hm hmq hb hmiss⟩

/-- C5 witness: `a.__proto__` and `a.missing` on an object with one
key, and index 5 of the one-element list `[10]`, all yield nil. -/
theorem C5_get_missing_nil_witness :
    evaluate (1 + 1 + 1 + 1)
      (.list [.str "get", .str "a", .list [.str "`", .str "__proto__"]]) 0
      { frames := [{ bindings := [("a", .obj 0)], parent := none, global := some 0 }],
        objs := [[("k", .num 1)]], root := stdRoot }
      = (.ok .nil,
         { frames := [{ bindings := [("a", .obj 0)], parent := none, global := some 0 }],
           objs := [[("k", .num 1)]], root := stdRoot })
  ∧ evaluate (1 + 1 + 1 + 1)
      (.list [.str "get", .str "a", .list [.str "`", .str "missing"]]) 0
      { frames := [{ bindings := [("a", .obj 0)], parent := none, global := some 0 }],
        objs := [[("k", .num 1)]], root := stdRoot }
      = (.ok .nil,
         { frames := [{ bindings := [("a", .obj 0)], parent := none, global := some 0 }],
           objs := [[("k", .num 1)]], root := stdRoot })
  ∧ evaluate (1 + 1 + 1 + 1)
      (.list [.str "get", .str "b", .list [.str "`", .num 5]]) 0
      { frames := [{ bindings := [("b", .list [.num 10])], parent := none, global := some 0 }],
        objs := [], root := stdRoot }
      = (.ok .nil,
         { frames := [{ bindings := [("b", .list [.num 10])], parent := none, global := some 0 }],
           objs := [], root := stdRoot }) :=
  ⟨C5_get_missing_nil.1 1 0 _ _ 0 (.str "a") "__proto__" rfl rfl rfl (Or.inl rfl),
   C5_get_missing_nil.1 1 0 _ _ 0 (.str "a") "missing" rfl rfl rfl (Or.inr rfl),
   C5_get_missing_nil.2 1 0 _ _ [.num 10] (.str "b") 5 rfl rfl rfl rfl⟩

end Expreva

namespace Expreva

/-! ## The try form (claim C6) -/

theorem evalTry_ok (fuel env : Nat) (st st1 : St) (body handler v : Val)
    (hm : macroHead st env "try" = false)
    (hev : evaluate (fuel + 1) body env st = (.ok v, st1)) :
    evaluate (fuel + 1 + 1) (.list [.str "try", body, handler]) env st
      = (.ok v, st1) := by
  simp only [evaluate] at hev ⊢
  have hx := expand_not st env "try" [body, handler] fuel hm
  generalize fuel + 1 = n at hx hev ⊢
  simp [go, hx, hev, Val.strEq]

theorem evalTry_err_list (fuel env : Nat) (st st1 : St) (body h0 hbody : Val)
    (e : Err) (anm : String)
    (hm : macroHead st env "try" = false)
    (hev : evaluate (fuel + 1) body env st = (.error e, st1))
    (hc : caughtByTry e = true)
    (han : anm ≠ "&") :
    evaluate (fuel + 1 + 1)
      (.list [.str "try", body, .list [h0, .str anm, hbody]]) env st
      = evaluate (fuel + 1) hbody st1.frames.length
          (st1.pushFrame
            { bindings := [(anm, Err.toVal e)], parent := some env,
              global := (st1.getFrame env).global }) := by
  simp only [evaluate] at hev ⊢
  have hx := expand_not st env "try" [body, .list [h0, .str anm, hbody]] fuel hm
  have hbs := bindScope_single st1 env anm (Err.toVal e) fuel han
  generalize fuel + 1 = n at hx hev hbs ⊢
  simp [go, hx, hev, hc, hbs, Val.strEq]

theorem evalTry_err_nonlist (fuel env : Nat) (st st1 : St) (body handler : Val) (e : Err)
    (hm : macroHead st env "try" = false)
    (hev : evaluate (fuel + 1) body env st = (.error e, st1))
    (hc : caughtByTry e = true)
    (hnl : handler.isList = false) :
    evaluate (fuel + 1 + 1) (.list [.str "try", body, handler]) env st
      = (.ok .nil, st1) := by
  simp only [evaluate] at hev ⊢
  have hx := expand_not st env "try" [body, handler] fuel hm
  generalize fuel + 1 = n at hx hev ⊢
  cases handler <;> simp [go, hx, hev, hc, Val.strEq, Val.isList] at hnl ⊢

/-- C6 counterexample: a handler list whose head is not `catch`
(`['nothead', 'e', 42]`) still runs its body: the error raised by the
malformed `['if']` body is caught and the form returns 42, not nil, so
the claim's "if and only if the handler is `['catch', ...]`-shaped"
fails in the only-if direction. -/
theorem C6_catch_shape_counterexample :
    run 20 (.list [.str "try", .list [.str "if"],
        .list [.str "nothead", .str "e", .num 42]]) = .ok (.num 42)
  ∧ Except.ok (Val.num 42) ≠ (.ok .nil : Except Err Val) := by
  constructor
  · rfl
  · simp

/-- C6 (amended): evaluating `['try', body, handler]` returns `body`'s
value on success; on an evaluation error, if `handler` is any list
(its head is not inspected), the error value is bound under the
handler's element 1 in a child scope and element 2 is evaluated there;
if `handler` is not a list the error is swallowed and nil returned. -/
theorem C6_try_semantics :
    (∀ fuel env st st1 body handler v, macroHead st env "try" = false →
       evaluate (fuel + 1) body env st = (.ok v, st1) →
       evaluate (fuel + 1 + 1) (.list [.str "try", body, handler]) env st
         = (.ok v, st1))
  ∧ (∀ fuel env st st1 body (e : Err) h0 hbody (anm : String),
       macroHead st env "try" = false →
       evaluate (fuel + 1) body env st = (.error e, st1) →
       caughtByTry e = true → anm ≠ "&" →
       evaluate (fuel + 1 + 1)
         (.list [.str "try", body, .list [h0, .str anm, hbody]]) env st
         = evaluate (fuel + 1) hbody st1.frames.length
             (st1.pushFrame
               { bindings := [(anm, Err.toVal e)], parent := some env,
                 global := (st1.getFrame env).global }))
  ∧ (∀ fuel env st st1 body (e : Err) handler, macroHead st env "try" = false →
       evaluate (fuel + 1) body env st = (.error e, st1) →
       caughtByTry e = true → handler.isList = false →
       evaluate (fuel + 1 + 1) (.list [.str "try", body, handler]) env st
         = (.ok .nil, st1)) :=
  ⟨fun fuel env st st1 body handler v hm hev =>
     evalTry_ok fuel env st st1 body handler v hm hev,
   fun fuel env st st1 body e h0 hbody anm hm hev hc han =>
     evalTry_err_list fuel env st st1 body h0 hbody e anm hm hev hc han,
   fun fuel env st st1 body e handler hm hev hc hnl =>
     evalTry_err_nonlist fuel env st st1 body handler e hm hev hc hnl⟩

/-- C6 witness: a successful body passes through; a failing body with
a `['nothead', 'e', 42]` handler binds the error and evaluates the
body in the child scope; a failing body with a non-list handler yields
nil. -/
theorem C6_try_semantics_witness :
    evaluate (3 + 1 + 1) (.list [.str "try", .num 7, .num 0]) 0 initSt
      = (.ok (.num 7), initSt)
  ∧ evaluate (3 + 1 + 1)
      (.list [.str "try", .list [.str "if"],
        .list [.str "nothead", .str "e", .num 42]]) 0 initSt
      = evaluate (3 + 1) (.num 42) initSt.frames.length
          (initSt.pushFrame
            { bindings := [("e", Err.toVal .noIfCondition)], parent := some 0,
              global := (initSt.getFrame 0).global })
  ∧ evaluate (3 + 1 + 1) (.list [.str "try", .list [.str "if"], .num 0]) 0 initSt
      = (.ok .nil, initSt) :=
  ⟨C6_try_semantics.1 3 0 initSt initSt (.num 7) (.num 0) (.num 7) rfl rfl,
   C6_try_semantics.2.1 3 0 initSt initSt (.list [.str "if"]) .noIfCondition
     (.str "nothead") (.num 42) "e" rfl rfl rfl (by simp),
   C6_try_semantics.2.2 3 0 initSt initSt (.list [.str "if"]) .noIfCondition
     (.num 0) rfl rfl rfl rfl⟩

end Expreva

namespace Expreva

/-! ## bindFunctionScope (claim C7) -/

theorem isNil_str (s : String) : (Val.str s).isNil = false := rfl

theorem isNil_list (xs : List Val) : (Val.list xs).isNil = false := rfl

theorem bset_cons_same (k : String) (v w : Val) (rest : List (String × Val)) :
    bset ((k, v) :: rest) k w = (k, w) :: rest := by
  simp [bset]

theorem bindScope_amp (st : St) (parent : Nat) (nm : String) (given : List Val)
    (n : Nat) (h : nm ≠ "&") :
    bindFunctionScope (n + 1) parent [.str "&", .str nm] given st
      = (.ok .nil, st.pushFrame
          { bindings := [(nm, given.getD 1 .nil)], parent := some parent,
            global := (st.getFrame parent).global }) := by
  simp [bindFunctionScope, go, bindArgsHO, h, St.create, jsKey,
        setFrameBinding_pushFrame_len, bset_cons_same, bset]

theorem bindScope_spread (st : St) (parent : Nat) (nm : String) (given : List Val)
    (n : Nat) :
    bindFunctionScope (n + 1) parent [.list [.str "...", .str nm]] given st
      = (.ok .nil, st.pushFrame
          { bindings := [(nm, .list given)], parent := some parent,
            global := (st.getFrame parent).global }) := by
  simp [bindFunctionScope, go, bindArgsHO, St.create, jsKey, Val.strEq, isNil_nil,
        isNil_str, setFrameBinding_pushFrame_len, bset]

theorem bindScope_defGiven (st : St) (parent : Nat) (nm : String) (d : Val)
    (given : List Val) (n : Nat)
    (hg : (given.getD 0 .nil).isNil = false) :
    bindFunctionScope (n + 1) parent [.list [.str "def", .str nm, d]] given st
      = (.ok .nil, st.pushFrame
          { bindings := [(nm, given.getD 0 .nil)], parent := some parent,
            global := (st.getFrame parent).global }) := by
  simp only [List.getD_eq_getElem?_getD] at hg
  simp [bindFunctionScope, go, bindArgsHO, St.create, jsKey, Val.strEq, isNil_nil, hg,
        isNil_str, setFrameBinding_pushFrame_len, bset]

theorem bindScope_defDefault (st st2 : St) (parent : Nat) (nm : String) (d dv : Val)
    (n : Nat)
    (hd : evaluateExpression n d st.frames.length
            (st.pushFrame (st.create parent)) = (.ok dv, st2)) :
    bindFunctionScope (n + 1) parent [.list [.str "def", .str nm, d]] [] st
      = (.ok .nil, st2.setFrameBinding st.frames.length nm dv) := by
  simp only [bindFunctionScope, evaluateExpression] at hd ⊢
  simp [go, bindArgsHO, jsKey, Val.strEq, isNil_nil, isNil_str, hd]

theorem bindScope_plain (st : St) (parent : Nat) (nm : String) (given : List Val)
    (n : Nat) (h : nm ≠ "&") :
    bindFunctionScope (n + 1) parent [.str nm] given st
      = (.ok .nil, st.pushFrame
          { bindings := [(nm, given.getD 0 .nil)], parent := some parent,
            global := (st.getFrame parent).global }) := by
  simp [bindFunctionScope, go, bindArgsHO, h, St.create,
        setFrameBinding_pushFrame_len, bset]

theorem bindScope_badArg (st : St) (parent : Nat) (a : Val) (rest given : List Val)
    (n : Nat) (h1 : a.isStr = false) (h2 : a.isList = false) :
    bindFunctionScope (n + 1) parent (a :: rest) given st
      = (.error (.badArgDef a), st.pushFrame (st.create parent)) := by
  cases a <;> simp [Val.isStr, Val.isList] at h1 h2 <;>
    simp [bindFunctionScope, go, bindArgsHO]

theorem bindScope_otherList (st st2 : St) (parent : Nat) (l : List Val) (w : Val)
    (given : List Val) (n : Nat)
    (hg1 : ((l.getD 0 .nil).strEq "def" && !(l.getD 1 .nil).isNil) = false)
    (hg2 : ((l.getD 0 .nil).strEq "..." && !(l.getD 1 .nil).isNil) = false)
    (hev : evaluateExpression n (.list [.list l]) st.frames.length
             (st.pushFrame (st.create parent)) = (.ok w, st2)) :
    bindFunctionScope (n + 1) parent [.list l] given st = (.ok .nil, st2) := by
  simp only [bindFunctionScope, evaluateExpression] at hev ⊢
  simp at hg1 hg2
  have k1 : ¬((l[0]?.getD Val.nil).strEq "def" = true
      ∧ (l[1]?.getD Val.nil).isNil = false) := by
    intro h
    have := hg1 h.1
    simp [this] at h
  have k2 : ¬((l[0]?.getD Val.nil).strEq "..." = true
      ∧ (l[1]?.getD Val.nil).isNil = false) := by
    intro h
    have := hg2 h.1
    simp [this] at h
  simp [go, bindArgsHO, k1, k2, hev]

/-- C7 counterexample: for `bind_function_scope` with argument
definitions `['&', 'r']` and given arguments `[10, 20, 30]`, the final
binding of `r` is the single value `20` (the plain-symbol iteration
over `r` overwrites the rest-list binding made by the `'&'` step), not
the remaining-arguments list the claim describes. -/
theorem C7_amp_counterexample :
    (bindFunctionScope 5 0 [.str "&", .str "r"] [.num 10, .num 20, .num 30] initSt).2
      = initSt.pushFrame
          { bindings := [("r", .num 20)], parent := some 0, global := some 0 }
  ∧ (Val.num 20).isList = false := ⟨rfl, rfl⟩

/-- C7 (amended): in `bind_function_scope`, the `'&'` marker first
binds the following name to the remaining given arguments, but the
iteration continues and the name itself is then processed as a plain
symbol, so the name ends up bound to the single given argument at the
name's position; `['...', name]` binds name to the remaining given
arguments as a list; `['def', name, default]` binds name to the given
argument at that position if provided, otherwise to the default
evaluated by `evaluateExpression` in the new scope; a plain symbol
binds to the given argument at its position (nil if missing); a
non-string, non-list argument definition fails with BadArgDef; and a
list-shaped argument definition of any other shape is evaluated as an
expression (errors propagating) and binds nothing. -/
theorem C7_bind_function_scope :
    (∀ st parent (nm : String) (given : List Val) n, nm ≠ "&" →
       bindFunctionScope (n + 1) parent [.str "&", .str nm] given st
         = (.ok .nil, st.pushFrame
             { bindings := [(nm, given.getD 1 .nil)], parent := some parent,
               global := (st.getFrame parent).global }))
  ∧ (∀ st parent (nm : String) (given : List Val) n,
       bindFunctionScope (n + 1) parent [.list [.str "...", .str nm]] given st
         = (.ok .nil, st.pushFrame
             { bindings := [(nm, .list given)], parent := some parent,
               global := (st.getFrame parent).global }))
  ∧ (∀ st parent (nm : String) d (given : List Val) n,
       (given.getD 0 .nil).isNil = false →
       bindFunctionScope (n + 1) parent [.list [.str "def", .str nm, d]] given st
         = (.ok .nil, st.pushFrame
             { bindings := [(nm, given.getD 0 .nil)], parent := some parent,
               global := (st.getFrame parent).global }))
  ∧ (∀ st st2 parent (nm : String) d dv n,
       evaluateExpression n d st.frames.length
           (st.pushFrame (st.create parent)) = (.ok dv, st2) →
       bindFunctionScope (n + 1) parent [.list [.str "def", .str nm, d]] [] st
         = (.ok .nil, st2.setFrameBinding st.frames.length nm dv))
  ∧ (∀ st parent (nm : String) (given : List Val) n, nm ≠ "&" →
       bindFunctionScope (n + 1) parent [.str nm] given st
         = (.ok .nil, st.pushFrame
             { bindings := [(nm, given.getD 0 .nil)], parent := some parent,
               global := (st.getFrame parent).global }))
  ∧ (∀ st parent (a : Val) (rest given : List Val) n,
       a.isStr = false → a.isList = false →
       bindFunctionScope (n + 1) parent (a :: rest) given st
         = (.error (.badArgDef a), st.pushFrame (st.create parent)))
  ∧ (∀ st st2 parent (l : List Val) w (given : List Val) n,
       ((l.getD 0 .nil).strEq "def" && !(l.getD 1 .nil).isNil) = false →
       ((l.getD 0 .nil).strEq "..." && !(l.getD 1 .nil).isNil) = false →
       evaluateExpression n (.list [.list l]) st.frames.length
           (st.pushFrame (st.create parent)) = (.ok w, st2) →
       bindFunctionScope (n + 1) parent [.list l] given st = (.ok .nil, st2)) :=
  ⟨fun st parent nm given n h => bindScope_amp st parent nm given n h,
   fun st parent nm given n => bindScope_spread st parent nm given n,
   fun st parent nm d given n hg => bindScope_defGiven st parent nm d given n hg,
   fun st st2 parent nm d dv n hd => bindScope_defDefault st st2 parent nm d dv n hd,
   fun st parent nm given n h => bindScope_plain st parent nm given n h,
   fun st parent a rest given n h1 h2 => bindScope_badArg st parent a rest given n h1 h2,
   fun st st2 parent l w given n hg1 hg2 hev =>
     bindScope_otherList st st2 parent l w given n hg1 hg2 hev⟩

/-- C7 witness: each clause applied at a concrete input over the
standard initial state. -/
theorem C7_bind_function_scope_witness :
    bindFunctionScope (4 + 1) 0 [.str "&", .str "r"] [.num 10, .num 20, .num 30] initSt
      = (.ok .nil, initSt.pushFrame
          { bindings := [("r", .num 20)], parent := some 0, global := some 0 })
  ∧ bindFunctionScope (4 + 1) 0 [.list [.str "...", .str "r"]] [.num 1, .num 2] initSt
      = (.ok .nil, initSt.pushFrame
          { bindings := [("r", .list [.num 1, .num 2])], parent := some 0,
            global := some 0 })
  ∧ bindFunctionScope (4 + 1) 0 [.list [.str "def", .str "x", .num 9]] [.num 3] initSt
      = (.ok .nil, initSt.pushFrame
          { bindings := [("x", .num 3)], parent := some 0, global := some 0 })
  ∧ bindFunctionScope (4 + 1) 0 [.list [.str "def", .str "x", .num 9]] [] initSt
      = (.ok .nil,
         (initSt.pushFrame (initSt.create 0)).setFrameBinding
           initSt.frames.length "x" (.num 9))
  ∧ bindFunctionScope (4 + 1) 0 [.str "x"] [.num 3] initSt
      = (.ok .nil, initSt.pushFrame
          { bindings := [("x", .num 3)], parent := some 0, global := some 0 })
  ∧ bindFunctionScope (4 + 1) 0 [.num 7] [] initSt
      = (.error (.badArgDef (.num 7)), initSt.pushFrame (initSt.create 0))
  ∧ bindFunctionScope (4 + 1) 0 [.list [.num 1]] [] initSt
      = (.ok .nil, initSt.pushFrame (initSt.create 0)) := by
  refine ⟨C7_bind_function_scope.1 initSt 0 "r" [.num 10, .num 20, .num 30] 4 (by decide),
   C7_bind_function_scope.2.1 initSt 0 "r" [.num 1, .num 2] 4,
   C7_bind_function_scope.2.2.1 initSt 0 "x" (.num 9) [.num 3] 4 rfl,
   ?_,
   C7_bind_function_scope.2.2.2.2.1 initSt 0 "x" [.num 3] 4 (by decide),
   C7_bind_function_scope.2.2.2.2.2.1 initSt 0 (.num 7) [] [] 4 rfl rfl,
   C7_bind_function_scope.2.2.2.2.2.2 initSt
     (initSt.pushFrame (initSt.create 0)) 0 [.num 1] (.list [.num 1]) [] 4 rfl rfl rfl⟩
  exact C7_bind_function_scope.2.2.2.1 initSt
    ((initSt.pushFrame (initSt.create 0))) 0 "x" (.num 9) (.num 9) 4 rfl

end Expreva

namespace Expreva

/-! ## Member-def purity (claim C9) -/

theorem bset_idem (b : List (String × Val)) (k : String) (v : Val) :
    bset (bset b k v) k v = bset b k v := by
  induction b with
  | nil => simp [bset]
  | cons p rest ih =>
    by_cases h : p.1 = k <;> simp [bset, h, ih]

/-- C9: the member-target `def` rewrite operates on a copy of the
target list (modelled by the pure list construction
`dropLast ++ [['def', key, value]]`), so evaluating the very same
`['def', ['get', 'a', ['`', k]], ['`', v]]` form a second time from
the state the first evaluation produced yields the same value and the
same state: the form is repeatable because the input AST was not
destructively rewritten. -/
theorem C9_def_member_repeatable (ob : List (String × Val)) (k : String) (v : Val) :
    evaluate (2 + 1 + 1 + 1 + 1)
      (.list [.str "def",
        .list [.str "get", .str "a", .list [.str "`", .str k]],
        .list [.str "`", v]]) 0 (objSt ob)
      = (.ok v, objSt (bset ob k v))
  ∧ evaluate (2 + 1 + 1 + 1 + 1)
      (.list [.str "def",
        .list [.str "get", .str "a", .list [.str "`", .str k]],
        .list [.str "`", v]]) 0 (objSt (bset ob k v))
      = (.ok v, objSt (bset ob k v)) := by
  have h1 := eval_def_member (objSt ob) 0 0 k v 2 rfl rfl rfl
    (by simp [objSt, envLookup, St.getFrame, blookup, List.getD])
  have h2 := eval_def_member (objSt (bset ob k v)) 0 0 k v 2 rfl rfl rfl
    (by simp [objSt, envLookup, St.getFrame, blookup, List.getD])
  constructor
  · rw [h1]
    simp [objSt, St.setObj, St.getObj, List.getD]
  · rw [h2]
    simp [objSt, St.setObj, St.getObj, List.getD, bset_idem]

/-! ## The obj form (claim C10) -/

theorem evalObjPairs_filter (ev : Val → St → Except Err Val × St)
    (ps : List Val) (acc : List (String × Val)) (st : St) :
    evalObjPairsHO ev ps acc st = evalObjPairsHO ev (ps.filter Val.isList) acc st := by
  induction ps generalizing acc st with
  | nil => rfl
  | cons p rest ih =>
    cases p <;> simp [evalObjPairsHO, Val.isList, List.filter, ih]

/-- C10: in an `['obj', ...entries]` form, entries that are nil or not
a list are silently skipped: evaluation agrees with evaluating the
form whose entries are filtered down to the list-shaped ones, so
skipped entries contribute nothing and raise no error. -/
theorem C10_obj_skips_nonlists :
    ∀ fuel env st (entries : List Val), macroHead st env "obj" = false →
      evaluate (fuel + 1 + 1) (.list (.str "obj" :: entries)) env st
        = evaluate (fuel + 1 + 1)
            (.list (.str "obj" :: entries.filter Val.isList)) env st := by
  intro fuel env st entries hm
  simp only [evaluate]
  have hx1 := expand_not st env "obj" entries fuel hm
  have hx2 := expand_not st env "obj" (entries.filter Val.isList) fuel hm
  generalize fuel + 1 = n at hx1 hx2 ⊢
  simp only [go, hx1, hx2]
  simp [Val.strEq]
  rw [evalObjPairs_filter]

/-- C10 witness: `['obj', 5, nil, ['k', 1]]` evaluates exactly like
`['obj', ['k', 1]]`, skipping the number and nil entries. -/
theorem C10_obj_skips_nonlists_witness :
    evaluate (3 + 1 + 1)
      (.list [.str "obj", .num 5, .nil, .list [.str "k", .num 1]]) 0 initSt
      = evaluate (3 + 1 + 1) (.list [.str "obj", .list [.str "k", .num 1]]) 0 initSt :=
  C10_obj_skips_nonlists 3 0 initSt [.num 5, .nil, .list [.str "k", .num 1]] rfl

end Expreva

namespace Expreva

/-! ## Operator precedence (claims C1 and C8) -/

theorem pratt_pair_lower_first (ra rb : BinRule)
    (ha : ra ∈ binaryRules) (hb : rb ∈ binaryRules)
    (hlt : ra.power < rb.power) (a b c : Int) :
    parseToks 12 [.num a, .op ra.tok, .num b, .op rb.tok, .num c]
      = (some (.list [.str ra.out, .num a,
          .list [.str rb.out, .num b, .num c]]), []) := by
  fin_cases ha <;> fin_cases hb <;>
    first
      | rfl
      | (exfalso; revert hlt; decide)

/-- C1: for every pair of binary operator rules with left-binding
powers `p_a < p_b`, parsing `a op_a b op_b c` yields the AST in which
`op_b` groups first, `[op_a, a, [op_b, b, c]]`; in particular, the
token streams of `1 + 2 * 3` and `(1 + 2) * 3` parse and evaluate to
7 and 9 respectively. -/
theorem C1_binary_precedence :
    (∀ ra rb, ra ∈ binaryRules → rb ∈ binaryRules → ra.power < rb.power →
       ∀ a b c : Int,
         parseToks 12 [.num a, .op ra.tok, .num b, .op rb.tok, .num c]
           = (some (.list [.str ra.out, .num a,
               .list [.str rb.out, .num b, .num c]]), []))
  ∧ parseToks 12 [.num 1, .op "+", .num 2, .op "*", .num 3]
      = (some (.list [.str "+", .num 1, .list [.str "*", .num 2, .num 3]]), [])
  ∧ run 20 (.list [.str "+", .num 1, .list [.str "*", .num 2, .num 3]])
      = .ok (.num 7)
  ∧ parseToks 12 [.op "(", .num 1, .op "+", .num 2, .op ")", .op "*", .num 3]
      = (some (.list [.str "*", .list [.str "+", .num 1, .num 2], .num 3]), [])
  ∧ run 20 (.list [.str "*", .list [.str "+", .num 1, .num 2], .num 3])
      = .ok (.num 9) :=
  ⟨fun ra rb ha hb hlt a b c => pratt_pair_lower_first ra rb ha hb hlt a b c,
   rfl, rfl, rfl, rfl⟩

/-- C1 witness: the universal part applied to the `+` (power 50) and
`*` (power 60) rules at operands 1, 2, 3. -/
theorem C1_binary_precedence_witness :
    parseToks 12 [.num 1, .op "+", .num 2, .op "*", .num 3]
      = (some (.list [.str "+", .num 1, .list [.str "*", .num 2, .num 3]]), []) :=
  C1_binary_precedence.1 ⟨"+", "+", 50⟩ ⟨"*", "*", 60⟩
    (by decide) (by decide) (by decide) 1 2 3

/-- C8 counterexample: the `!` prefix handler in `rules.ts` parses its
operand with `parser.nextExpression(0)`, not 70, so `! 2 * 3` parses
as `['!', ['*', 2, 3]]` - the unary operator consumes the whole
product instead of taking only `2` as the claim states. -/
theorem C8_unary_power_counterexample :
    parseToks 12 [.op "!", .num 2, .op "*", .num 3]
      = (some (.list [.str "!", .list [.str "*", .num 2, .num 3]]), [])
  ∧ parseToks 12 [.op "!", .num 2, .op "*", .num 3]
      ≠ (some (.list [.str "*", .list [.str "!", .num 2], .num 3]), []) := by
  constructor
  · rfl
  · intro h
    rw [show parseToks 12 [.op "!", .num 2, .op "*", .num 3]
        = (some (.list [.str "!", .list [.str "*", .num 2, .num 3]]), []) from rfl] at h
    simp at h

/-- C8 (amended): the unary `+` and `-` prefix handlers parse their
right operand at binding power 70, stronger than `*`/`/` (power 60),
so applied before `b * c` they take only `b`; the `!` and `not` prefix
handlers, although their rules declare power 70, parse their right
operand at power 0 and therefore consume the entire following
expression `b * c`. -/
theorem C8_unary_operand_power :
    (∀ b c : Int, parseToks 12 [.op "+", .num b, .op "*", .num c]
       = (some (.list [.str "*", .num b, .num c]), []))
  ∧ (∀ b c : Int, parseToks 12 [.op "-", .num b, .op "*", .num c]
       = (some (.list [.str "*", .num (-b), .num c]), []))
  ∧ (∀ b c : Int, parseToks 12 [.op "!", .num b, .op "*", .num c]
       = (some (.list [.str "!", .list [.str "*", .num b, .num c]]), []))
  ∧ (∀ b c : Int, parseToks 12 [.op "not", .num b, .op "*", .num c]
       = (some (.list [.str "!", .list [.str "*", .num b, .num c]]), []))
  ∧ rulePower "!" = 70 ∧ rulePower "not" = 70
  ∧ rulePower "*" = 60 ∧ rulePower "/" = 60 :=
  ⟨fun _ _ => rfl, fun _ _ => rfl, fun _ _ => rfl, fun _ _ => rfl,
   rfl, rfl, rfl, rfl⟩

end Expreva
